import Mathlib

/-!
Shallow embedding of `src/saftvrqmie/dft/mod.rs` of the feos repository:
the SAFT-VRQ Mie Helmholtz energy functional, its construction
(`with_options`), subsetting, maximum-density bound, ideal-gas term,
molecule/monomer shapes and pair-potential evaluation.

Machine floats (`f64`) are modelled by real numbers; per-species arrays
(`Array1<f64>`) by lists of reals.  Code of the repository that is only
referenced from this file (the `FMTVersion` enum, `Parameter::subset`,
`Joback`, `qmie_potential_ij`) is modelled from the spec, as marked in the
corresponding doc comments.
-/

namespace Feos

/-- Modelled from the spec: the `FMTVersion` enum of the `hard_sphere`
module is not under src.  The spec names "the two White-Bear variants"
among the hard-sphere functional-theory formulations; `mod.rs` matches on
`WhiteBear` and `AntiSymWhiteBear` with a catch-all else branch, so at
least one further version exists (`KierlikRosinberg` in the repository). -/
inductive FMTVersion
  | WhiteBear
  | KierlikRosinberg
  | AntiSymWhiteBear
  deriving DecidableEq

/-- Modelled from the spec: a Joback ideal-gas correlation record
(five per-species correlation coefficients); the record type itself is
not under src. -/
structure JobackRecord where
  a : ℝ
  b : ℝ
  c : ℝ
  d : ℝ
  e : ℝ
  deriving Inhabited

/-- The per-species parameter set `SaftVRQMieParameters` (its definition in
`saftvrqmie/parameters.rs` is not under src; fields are taken from their
uses in `mod.rs` and from the spec's data model §3: segment number `m`,
diameter `sigma`, energy `epsilon_k`, repulsive/attractive Mie exponents,
particle mass, molar weight, optional Joback records). -/
structure SaftVRQMieParameters where
  m : List ℝ
  sigma : List ℝ
  epsilon_k : List ℝ
  lambda_r : List ℝ
  lambda_a : List ℝ
  mass : List ℝ
  molarweight : List ℝ
  joback_records : Option (List JobackRecord)

/-- `SaftVRQMieOptions` (fields taken from their uses in `mod.rs` and the
spec's configuration surface §6). -/
structure SaftVRQMieOptions where
  max_eta : ℝ
  max_iter_cross_assoc : ℕ
  tol_cross_assoc : ℝ
  inc_nonadd_term : Bool

/-- One entry of the `Vec<Box<dyn FunctionalContribution>>` assembled by
`with_options`.  Each trait object owns (an `Arc` of) the parameter set;
the boxed value is identified by its concrete type and constructor
arguments.  The chain and association constructors correspond to the
contribution types that `mod.rs` keeps commented out ("currently disabled
pending completion" in the spec). -/
inductive FunctionalContribution
  | pureFMTAssoc (parameters : SaftVRQMieParameters) (fmt_version : FMTVersion)
  | pureChain (parameters : SaftVRQMieParameters)
  | pureAtt (parameters : SaftVRQMieParameters)
  | fmtHS (parameters : SaftVRQMieParameters) (fmt_version : FMTVersion)
  | nonAddHS (parameters : SaftVRQMieParameters)
  | chain (parameters : SaftVRQMieParameters)
  | att (parameters : SaftVRQMieParameters)
  | assoc (parameters : SaftVRQMieParameters) (max_iter : ℕ) (tol : ℝ)

/-- Modelled from the spec: the `Joback` ideal-gas term of `feos_core` is
not under src.  `mod.rs` builds it either from supplied records
(`Joback::new`) or as a default sized to the component count
(`Joback::default(n)`). -/
inductive Joback
  | records (records : List JobackRecord)
  | default (ncomponents : ℕ)

/-- The `SaftVRQMieFunctional` struct. -/
structure SaftVRQMieFunctional where
  parameters : SaftVRQMieParameters
  fmt_version : FMTVersion
  options : SaftVRQMieOptions
  contributions : List FunctionalContribution
  joback : Joback

/-- `SaftVRQMieFunctional::with_options`: assembles the contribution list.
If the FMT version is `WhiteBear` or `AntiSymWhiteBear` and the parameter
set has exactly one component, the specialized pure-component path is
taken (`PureFMTAssocFunctional` then `PureAttFunctional`); otherwise the
general path: `FMTContribution`, optionally `NonAddHardSphereFunctional`
(gated by `inc_nonadd_term`), then `AttractiveFunctional`.  The ideal-gas
term is built from the Joback records when present, else defaulted to the
component count. -/
def with_options (parameters : SaftVRQMieParameters) (fmt_version : FMTVersion)
    (saft_options : SaftVRQMieOptions) : SaftVRQMieFunctional :=
  let contributions : List FunctionalContribution :=
    if (fmt_version = FMTVersion.WhiteBear ∨ fmt_version = FMTVersion.AntiSymWhiteBear)
        ∧ parameters.m.length = 1 then
      [FunctionalContribution.pureFMTAssoc parameters fmt_version,
       FunctionalContribution.pureAtt parameters]
    else
      [FunctionalContribution.fmtHS parameters fmt_version]
        ++ (if saft_options.inc_nonadd_term then [FunctionalContribution.nonAddHS parameters]
            else [])
        ++ [FunctionalContribution.att parameters]
  let joback : Joback :=
    match parameters.joback_records with
    | some joback_records => Joback.records joback_records
    | none => Joback.default parameters.m.length
  { parameters := parameters
    fmt_version := fmt_version
    options := saft_options
    contributions := contributions
    joback := joback }

/-- Modelled from the spec: `Parameter::subset` of `feos_core` is not under
src.  Per the spec (§3) it "produces a new, independent parameter set with
reordered/reduced arrays": every per-species array is re-indexed by the
component list, including the optional Joback records. -/
def SaftVRQMieParameters.subset (p : SaftVRQMieParameters) (component_list : List ℕ) :
    SaftVRQMieParameters where
  m := component_list.map fun i => p.m.getD i 0
  sigma := component_list.map fun i => p.sigma.getD i 0
  epsilon_k := component_list.map fun i => p.epsilon_k.getD i 0
  lambda_r := component_list.map fun i => p.lambda_r.getD i 0
  lambda_a := component_list.map fun i => p.lambda_a.getD i 0
  mass := component_list.map fun i => p.mass.getD i 0
  molarweight := component_list.map fun i => p.molarweight.getD i 0
  joback_records := p.joback_records.map fun rs => component_list.map fun i => rs.getD i default

/-- `HelmholtzEnergyFunctional::subset` for `SaftVRQMieFunctional`:
re-runs `with_options` on the reduced parameter set, with the same FMT
version and options. -/
def SaftVRQMieFunctional.subset (f : SaftVRQMieFunctional) (component_list : List ℕ) :
    SaftVRQMieFunctional :=
  with_options (f.parameters.subset component_list) f.fmt_version f.options

/-- `HelmholtzEnergyFunctional::compute_max_density`:
`max_eta * moles.sum() / (FRAC_PI_6 * m * sigma³ * moles).sum()` with
elementwise array products (`FRAC_PI_6` is π/6). -/
noncomputable def compute_max_density (f : SaftVRQMieFunctional) (moles : List ℝ) : ℝ :=
  f.options.max_eta * moles.sum /
    (List.zipWith (fun w n => w * n)
      (List.zipWith (fun mi si => Real.pi / 6 * mi * si ^ 3) f.parameters.m f.parameters.sigma)
      moles).sum

/-- `HelmholtzEnergyFunctional::ideal_gas`: returns the stored Joback term. -/
def ideal_gas (f : SaftVRQMieFunctional) : Joback :=
  f.joback

/-- The `MoleculeShape` enum of `feos_dft` (referenced, not under src):
tags the fluid as spherical monomers or non-spherical chains carrying the
segment-number array. -/
inductive MoleculeShape
  | Spherical (ncomponents : ℕ)
  | NonSpherical (m : List ℝ)

/-- The `MonomerShape` enum of the `hard_sphere` module (referenced, not
under src): shape report used by the hard-sphere machinery. -/
inductive MonomerShape
  | Spherical (ncomponents : ℕ)
  | NonSpherical (m : List ℝ)

/-- `HelmholtzEnergyFunctional::molecule_shape`:
`MoleculeShape::NonSpherical(&self.parameters.m)`. -/
def molecule_shape (f : SaftVRQMieFunctional) : MoleculeShape :=
  MoleculeShape.NonSpherical f.parameters.m

/-- `HardSphereProperties::monomer_shape` for `SaftVRQMieParameters`:
`MonomerShape::Spherical(self.m.len())`, ignoring the temperature-like
argument. -/
def monomer_shape (p : SaftVRQMieParameters) (_temperature : ℝ) : MonomerShape :=
  MonomerShape.Spherical p.m.length

/-- Whether a `MoleculeShape` report is the spherical variant. -/
def MoleculeShape.isSpherical : MoleculeShape → Bool
  | MoleculeShape.Spherical _ => true
  | MoleculeShape.NonSpherical _ => false

/-- Whether a `MonomerShape` report is the spherical variant. -/
def MonomerShape.isSpherical : MonomerShape → Bool
  | MonomerShape.Spherical _ => true
  | MonomerShape.NonSpherical _ => false

/-- Modelled from the spec: cross-interaction size parameter of the pair
`(i, j)` (arithmetic-mean combining rule); `qmie_potential_ij` lives in
`saftvrqmie/parameters.rs`, which is not under src. -/
noncomputable def sigma_ij (p : SaftVRQMieParameters) (i j : ℕ) : ℝ :=
  (p.sigma.getD i 0 + p.sigma.getD j 0) / 2

/-- Modelled from the spec: cross-interaction energy parameter
(geometric-mean combining rule). -/
noncomputable def epsilon_k_ij (p : SaftVRQMieParameters) (i j : ℕ) : ℝ :=
  Real.sqrt (p.epsilon_k.getD i 0 * p.epsilon_k.getD j 0)

/-- Modelled from the spec: cross repulsive Mie exponent. -/
noncomputable def lambda_r_ij (p : SaftVRQMieParameters) (i j : ℕ) : ℝ :=
  3 + Real.sqrt ((p.lambda_r.getD i 0 - 3) * (p.lambda_r.getD j 0 - 3))

/-- Modelled from the spec: cross attractive Mie exponent. -/
noncomputable def lambda_a_ij (p : SaftVRQMieParameters) (i j : ℕ) : ℝ :=
  3 + Real.sqrt ((p.lambda_a.getD i 0 - 3) * (p.lambda_a.getD j 0 - 3))

/-- Modelled from the spec: reduced mass of the pair `(i, j)`, entering the
quantum (Feynman-Hibbs) correction of the pair potential. -/
noncomputable def reduced_mass (p : SaftVRQMieParameters) (i j : ℕ) : ℝ :=
  p.mass.getD i 0 * p.mass.getD j 0 / (p.mass.getD i 0 + p.mass.getD j 0)

/-- Mie prefactor `C(λr, λa) = λr/(λr-λa) · (λr/λa)^(λa/(λr-λa))`. -/
noncomputable def mie_prefactor (lr la : ℝ) : ℝ :=
  lr / (lr - la) * (lr / la) ^ (la / (lr - la))

/-- First-order Feynman-Hibbs exponent factor `Q₁(λ) = λ(λ-1)`. -/
def q1_factor (l : ℝ) : ℝ :=
  l * (l - 1)

/-- Modelled from the spec: `SaftVRQMieParameters::qmie_potential_ij`
(not under src).  Per the spec it returns the quantum-corrected Mie
pair-interaction energy of species `i` and `j` at distance `r` and
temperature `T` (the Rust method returns the value and its derivatives;
`mod.rs` reads index `[0]`, the value, which is the head of this list):
the Mie potential on the cross parameters plus a first-order
Feynman-Hibbs correction weighted by `1/(μ_ij T)`. -/
noncomputable def SaftVRQMieParameters.qmie_potential_ij (p : SaftVRQMieParameters)
    (i j : ℕ) (r temperature : ℝ) : List ℝ :=
  let s := sigma_ij p i j
  let e := epsilon_k_ij p i j
  let lr := lambda_r_ij p i j
  let la := lambda_a_ij p i j
  let c := mie_prefactor lr la
  let d := 1 / (24 * reduced_mass p i j * temperature)
  [c * e * ((s / r) ^ lr - (s / r) ^ la)
    + d * (c * e * (q1_factor lr * (s / r) ^ lr - q1_factor la * (s / r) ^ la) / r ^ 2)]

/-- `PairPotential::pair_potential` for `SaftVRQMieFunctional`: the matrix
of shape `(m.len(), r.len())` whose entry `(j, k)` is
`qmie_potential_ij(i, j, r[k], temperature)[0]`; embedded as the entry
function `(j, k) ↦ value`. -/
noncomputable def pair_potential (f : SaftVRQMieFunctional) (i : ℕ) (r : List ℝ)
    (temperature : ℝ) : ℕ → ℕ → ℝ :=
  fun j k => (f.parameters.qmie_potential_ij i j (r.getD k 0) temperature).getD 0 0

/-- A one-component sample parameter set used as concrete input. -/
def pOne : SaftVRQMieParameters where
  m := [1]
  sigma := [1]
  epsilon_k := [1]
  lambda_r := [12]
  lambda_a := [6]
  mass := [1]
  molarweight := [2]
  joback_records := none

/-- A two-component sample parameter set used as concrete input. -/
def pTwo : SaftVRQMieParameters where
  m := [1, 2]
  sigma := [1, 1]
  epsilon_k := [1, 2]
  lambda_r := [12, 12]
  lambda_a := [6, 6]
  mass := [1, 1]
  molarweight := [2, 3]
  joback_records := none

/-- Default-like sample options. -/
noncomputable def optsDefault : SaftVRQMieOptions where
  max_eta := 1 / 2
  max_iter_cross_assoc := 50
  tol_cross_assoc := 1e-10
  inc_nonadd_term := false

/-! ### Helper lemmas -/

lemma range_map_getD {α : Type _} (l : List α) (d : α) :
    (List.range l.length).map (fun i => l.getD i d) = l := by
  apply List.ext_getElem
  · simp
  · intro i h1 h2
    simp only [List.getElem_map, List.getElem_range, List.getD_eq_getElem?_getD,
      List.getElem?_eq_getElem h2, Option.getD_some]

lemma zipWith3_sum_eq (f : ℝ → ℝ → ℝ) (a : List ℝ) :
    ∀ (b c : List ℝ), a.length = b.length → a.length = c.length →
      (List.zipWith (fun w n => w * n) (List.zipWith f a b) c).sum =
        ∑ i ∈ Finset.range a.length, f (a.getD i 0) (b.getD i 0) * c.getD i 0 := by
  induction a with
  | nil => intro b c _ _; simp
  | cons x a ih =>
    intro b c h1 h2
    cases b with
    | nil => simp at h1
    | cons y b =>
      cases c with
      | nil => simp at h2
      | cons z c =>
        simp only [List.zipWith_cons_cons, List.sum_cons, List.length_cons]
        rw [Finset.sum_range_succ']
        simp only [List.getD_cons_succ, List.getD_cons_zero]
        rw [ih b c (by simpa using h1) (by simpa using h2)]
        ring

lemma zipWith_mul_map_sum (c : ℝ) (w : List ℝ) :
    ∀ ms : List ℝ,
      (List.zipWith (fun a b => a * b) w (ms.map fun x => c * x)).sum =
        c * (List.zipWith (fun a b => a * b) w ms).sum := by
  induction w with
  | nil => intro ms; simp
  | cons a w ih =>
    intro ms
    cases ms with
    | nil => simp
    | cons b ms =>
      simp only [List.map_cons, List.zipWith_cons_cons, List.sum_cons, ih ms]
      ring

lemma sum_map_mul (c : ℝ) (l : List ℝ) :
    (l.map fun x => c * x).sum = c * l.sum := by
  induction l with
  | nil => simp
  | cons a t ih =>
    simp only [List.map_cons, List.sum_cons, ih]
    ring

/-- The hard-sphere packing denominator of `compute_max_density`:
`(FRAC_PI_6 * m * sigma³ * moles).sum()`. -/
noncomputable def packing_denominator (p : SaftVRQMieParameters) (moles : List ℝ) : ℝ :=
  (List.zipWith (fun w n => w * n)
    (List.zipWith (fun mi si => Real.pi / 6 * mi * si ^ 3) p.m p.sigma) moles).sum

lemma compute_max_density_eq (f : SaftVRQMieFunctional) (moles : List ℝ) :
    compute_max_density f moles =
      f.options.max_eta * moles.sum / packing_denominator f.parameters moles :=
  rfl

/-- A sample options record with a smaller packing-fraction cap. -/
noncomputable def optsQuarter : SaftVRQMieOptions where
  max_eta := 1 / 4
  max_iter_cross_assoc := 50
  tol_cross_assoc := 1e-10
  inc_nonadd_term := false

/-! ### Claims -/

/-- C1: `with_options` uses the specialized fast path — the combined
hard-sphere+association contribution followed by the single-component
attraction contribution — exactly when the FMT version is `WhiteBear` or
`AntiSymWhiteBear` and the parameter set has exactly one component; in
every other case it uses the general multi-component contribution list. -/
theorem with_options_fast_path_iff (p : SaftVRQMieParameters) (fmt : FMTVersion)
    (opts : SaftVRQMieOptions) :
    ((with_options p fmt opts).contributions =
        [FunctionalContribution.pureFMTAssoc p fmt, FunctionalContribution.pureAtt p] ↔
      (fmt = FMTVersion.WhiteBear ∨ fmt = FMTVersion.AntiSymWhiteBear) ∧ p.m.length = 1) ∧
    ((with_options p fmt opts).contributions =
        [FunctionalContribution.pureFMTAssoc p fmt, FunctionalContribution.pureAtt p] ∨
      (with_options p fmt opts).contributions =
        [FunctionalContribution.fmtHS p fmt]
          ++ (if opts.inc_nonadd_term then [FunctionalContribution.nonAddHS p] else [])
          ++ [FunctionalContribution.att p]) := by
  by_cases h : (fmt = FMTVersion.WhiteBear ∨ fmt = FMTVersion.AntiSymWhiteBear)
      ∧ p.m.length = 1
  · simp [with_options, h]
  · rcases hi : opts.inc_nonadd_term <;> simp [with_options, h, hi]

/-- C3: `compute_max_density` equals `max_eta` times total moles divided by
the sum over species `i` of `mᵢ · (π/6) · σᵢ³ · nᵢ`, whenever the
per-species arrays and the mole vector share the component count. -/
theorem compute_max_density_formula (p : SaftVRQMieParameters) (fmt : FMTVersion)
    (opts : SaftVRQMieOptions) (moles : List ℝ) (n : ℕ)
    (hm : p.m.length = n) (hsig : p.sigma.length = n) (hmol : moles.length = n) :
    compute_max_density (with_options p fmt opts) moles =
      opts.max_eta * moles.sum /
        ∑ i ∈ Finset.range n,
          p.m.getD i 0 * (Real.pi / 6) * p.sigma.getD i 0 ^ 3 * moles.getD i 0 := by
  have h := zipWith3_sum_eq (fun mi si => Real.pi / 6 * mi * si ^ 3) p.m p.sigma moles
    (by rw [hm, hsig]) (by rw [hm, hmol])
  simp only [compute_max_density, with_options] at *
  rw [h, hm]
  congr 1
  refine Finset.sum_congr rfl fun i _ => ?_
  ring

/-- Witness for C3 at the two-component sample set and moles `[1, 2]`. -/
theorem compute_max_density_formula_witness :
    pTwo.m.length = 2 ∧ pTwo.sigma.length = 2 ∧ ([1, 2] : List ℝ).length = 2 ∧
    compute_max_density (with_options pTwo FMTVersion.WhiteBear optsDefault) [1, 2] =
      optsDefault.max_eta * ([1, 2] : List ℝ).sum /
        ∑ i ∈ Finset.range 2,
          pTwo.m.getD i 0 * (Real.pi / 6) * pTwo.sigma.getD i 0 ^ 3 *
            ([1, 2] : List ℝ).getD i 0 :=
  ⟨rfl, rfl, rfl,
    compute_max_density_formula pTwo FMTVersion.WhiteBear optsDefault [1, 2] 2 rfl rfl rfl⟩

/-- C9: the constructed functional's `ideal_gas` term is built from the
supplied Joback records when the parameter set provides them, and is
otherwise the default term sized to the component count. -/
theorem ideal_gas_always_joback (p : SaftVRQMieParameters) (fmt : FMTVersion)
    (opts : SaftVRQMieOptions) :
    ideal_gas (with_options p fmt opts) =
      Option.elim p.joback_records (Joback.default p.m.length) Joback.records := by
  rcases hj : p.joback_records with _ | rs <;> simp [ideal_gas, with_options, hj]

/-- C10: `molecule_shape` always reports `NonSpherical` carrying the
segment-number array `m`, while `monomer_shape` of the same parameter type
reports `Spherical` (sized to the component count) for every temperature;
the two reports always carry different sphericity tags. -/
theorem molecule_shape_vs_monomer_shape (p : SaftVRQMieParameters) (fmt : FMTVersion)
    (opts : SaftVRQMieOptions) (temperature : ℝ) :
    molecule_shape (with_options p fmt opts) = MoleculeShape.NonSpherical p.m ∧
    monomer_shape p temperature = MonomerShape.Spherical p.m.length ∧
    (molecule_shape (with_options p fmt opts)).isSpherical = false ∧
    (monomer_shape p temperature).isSpherical = true :=
  ⟨rfl, rfl, rfl, rfl⟩

/-- C4 counterexample: `compute_max_density` does NOT scale linearly with
total moles.  For the one-component sample set, doubling the mole vector
`[1]` leaves the value unchanged (it is intensive), so it differs from
twice the original value. -/
theorem compute_max_density_not_linear :
    ¬ (compute_max_density (with_options pOne FMTVersion.WhiteBear optsDefault)
          (List.map (fun x => (2 : ℝ) * x) [1]) =
        2 * compute_max_density (with_options pOne FMTVersion.WhiteBear optsDefault) [1]) := by
  intro heq
  have hπ : Real.pi ≠ 0 := Real.pi_ne_zero
  simp only [compute_max_density, with_options, pOne, optsDefault, List.map_cons,
    List.map_nil, List.zipWith_cons_cons, List.zipWith_nil_right, List.sum_cons,
    List.sum_nil] at heq
  field_simp at heq
  nlinarith [Real.pi_pos]

/-- C4 (amended): `compute_max_density` is invariant under scaling all mole
numbers by a positive factor (homogeneous of degree zero in the moles),
and for a fixed mole vector with positive total moles and positive packing
denominator it strictly decreases as `max_eta` decreases. -/
theorem compute_max_density_scale_invariant_and_eta_monotone (p : SaftVRQMieParameters)
    (fmt : FMTVersion) (o o' : SaftVRQMieOptions) (moles : List ℝ) (c : ℝ)
    (hc : 0 < c) (heta : o'.max_eta < o.max_eta)
    (hD : 0 < packing_denominator p moles) (hS : 0 < moles.sum) :
    compute_max_density (with_options p fmt o) (moles.map fun x => c * x) =
      compute_max_density (with_options p fmt o) moles ∧
    compute_max_density (with_options p fmt o') moles <
      compute_max_density (with_options p fmt o) moles := by
  have key : ∀ (oo : SaftVRQMieOptions) (ms : List ℝ),
      compute_max_density (with_options p fmt oo) ms =
        oo.max_eta * ms.sum / packing_denominator p ms :=
    fun oo ms => rfl
  constructor
  · rw [key, key, sum_map_mul]
    have hden : packing_denominator p (moles.map fun x => c * x) =
        c * packing_denominator p moles := by
      unfold packing_denominator
      exact zipWith_mul_map_sum c _ moles
    rw [hden, show o.max_eta * (c * moles.sum) = c * (o.max_eta * moles.sum) by ring,
      mul_div_mul_left _ _ (ne_of_gt hc)]
  · rw [key, key]
    exact div_lt_div_of_pos_right (mul_lt_mul_of_pos_right heta hS) hD

/-- Witness for the amended C4 theorem at the one-component sample set,
scale factor 2 and packing caps 1/4 < 1/2. -/
theorem compute_max_density_scale_invariant_and_eta_monotone_witness :
    (0 : ℝ) < 2 ∧ optsQuarter.max_eta < optsDefault.max_eta ∧
    0 < packing_denominator pOne [1] ∧ (0 : ℝ) < List.sum [1] ∧
    (compute_max_density (with_options pOne FMTVersion.WhiteBear optsDefault)
        (List.map (fun x => (2 : ℝ) * x) [1]) =
      compute_max_density (with_options pOne FMTVersion.WhiteBear optsDefault) [1] ∧
    compute_max_density (with_options pOne FMTVersion.WhiteBear optsQuarter) [1] <
      compute_max_density (with_options pOne FMTVersion.WhiteBear optsDefault) [1]) := by
  have hD : 0 < packing_denominator pOne [1] := by
    have hπ : 0 < Real.pi := Real.pi_pos
    simp only [packing_denominator, pOne, List.zipWith_cons_cons, List.zipWith_nil_right,
      List.zipWith_nil_left, List.sum_cons, List.sum_nil]
    nlinarith
  have heta : optsQuarter.max_eta < optsDefault.max_eta := by
    norm_num [optsQuarter, optsDefault]
  have hS : (0 : ℝ) < List.sum [1] := by norm_num
  exact ⟨by norm_num, heta, hD, hS,
    compute_max_density_scale_invariant_and_eta_monotone pOne FMTVersion.WhiteBear
      optsDefault optsQuarter [1] 2 (by norm_num) heta hD hS⟩

lemma subset_range_eq (p : SaftVRQMieParameters) (n : ℕ)
    (hm : p.m.length = n) (hsig : p.sigma.length = n) (heps : p.epsilon_k.length = n)
    (hlr : p.lambda_r.length = n) (hla : p.lambda_a.length = n)
    (hmass : p.mass.length = n) (hmw : p.molarweight.length = n)
    (hj : ∀ rs ∈ p.joback_records, rs.length = n) :
    p.subset (List.range n) = p := by
  have hfield : ∀ {α : Type} (d : α) (l : List α), l.length = n →
      (List.range n).map (fun i => l.getD i d) = l := by
    intro α d l hl
    rw [← hl]
    exact range_map_getD l d
  cases p with
  | mk m sigma epsilon_k lambda_r lambda_a mass molarweight joback_records =>
    simp only [SaftVRQMieParameters.subset, SaftVRQMieParameters.mk.injEq]
    refine ⟨hfield 0 m hm, hfield 0 sigma hsig, hfield 0 epsilon_k heps,
      hfield 0 lambda_r hlr, hfield 0 lambda_a hla, hfield 0 mass hmass,
      hfield 0 molarweight hmw, ?_⟩
    cases joback_records with
    | none => rfl
    | some rs =>
      simp only [Option.map_some', Option.some.injEq]
      exact hfield default rs (hj rs rfl)

/-- C2: subsetting the constructed functional with the full index list
`[0, …, n-1]` reproduces the original functional exactly (given the
data-model invariant that all per-species arrays have the component
count as their length); hence every output — in particular the Helmholtz
energy at every state input — is bit-for-bit equal. -/
theorem subset_full_index_identity (p : SaftVRQMieParameters) (n : ℕ)
    (hm : p.m.length = n) (hsig : p.sigma.length = n) (heps : p.epsilon_k.length = n)
    (hlr : p.lambda_r.length = n) (hla : p.lambda_a.length = n)
    (hmass : p.mass.length = n) (hmw : p.molarweight.length = n)
    (hj : ∀ rs ∈ p.joback_records, rs.length = n)
    (fmt : FMTVersion) (opts : SaftVRQMieOptions) :
    (with_options p fmt opts).subset (List.range n) = with_options p fmt opts ∧
    ∀ (helmholtz_energy : SaftVRQMieFunctional → List ℝ → ℝ → ℝ)
      (density : List ℝ) (temperature : ℝ),
      helmholtz_energy ((with_options p fmt opts).subset (List.range n)) density temperature =
        helmholtz_energy (with_options p fmt opts) density temperature := by
  have h : (with_options p fmt opts).subset (List.range n) = with_options p fmt opts := by
    show with_options (p.subset (List.range n)) fmt opts = with_options p fmt opts
    rw [subset_range_eq p n hm hsig heps hlr hla hmass hmw hj]
  exact ⟨h, fun energy density temperature => by rw [h]⟩

/-- Witness for C2 at the two-component sample set. -/
theorem subset_full_index_identity_witness :
    pTwo.m.length = 2 ∧ pTwo.sigma.length = 2 ∧
    (with_options pTwo FMTVersion.WhiteBear optsDefault).subset (List.range 2) =
      with_options pTwo FMTVersion.WhiteBear optsDefault := by
  refine ⟨rfl, rfl, ?_⟩
  exact (subset_full_index_identity pTwo 2 rfl rfl rfl rfl rfl rfl rfl
    (by intro rs hrs; simp [pTwo] at hrs) FMTVersion.WhiteBear optsDefault).1

/-- Whether a contribution is one of the chain or association kinds (the
ones `mod.rs` keeps commented out). -/
def FunctionalContribution.isChainOrAssoc : FunctionalContribution → Bool
  | FunctionalContribution.pureFMTAssoc _ _ => false
  | FunctionalContribution.pureChain _ => true
  | FunctionalContribution.pureAtt _ => false
  | FunctionalContribution.fmtHS _ _ => false
  | FunctionalContribution.nonAddHS _ => false
  | FunctionalContribution.chain _ => true
  | FunctionalContribution.att _ => false
  | FunctionalContribution.assoc _ _ _ => true

/-- C5: when the fast path is not taken, the contribution list is the
general FMT hard-sphere contribution, then the non-additive hard-sphere
correction exactly when `inc_nonadd_term` is set, then the general
attraction contribution — and no chain or association contribution is
present. -/
theorem general_path_contributions (p : SaftVRQMieParameters) (fmt : FMTVersion)
    (opts : SaftVRQMieOptions)
    (h : ¬((fmt = FMTVersion.WhiteBear ∨ fmt = FMTVersion.AntiSymWhiteBear)
      ∧ p.m.length = 1)) :
    (with_options p fmt opts).contributions =
      [FunctionalContribution.fmtHS p fmt]
        ++ (if opts.inc_nonadd_term then [FunctionalContribution.nonAddHS p] else [])
        ++ [FunctionalContribution.att p] ∧
    (FunctionalContribution.nonAddHS p ∈ (with_options p fmt opts).contributions ↔
      opts.inc_nonadd_term = true) ∧
    ∀ contrib ∈ (with_options p fmt opts).contributions,
      contrib.isChainOrAssoc = false := by
  rcases hi : opts.inc_nonadd_term <;>
    simp [with_options, h, hi, FunctionalContribution.isChainOrAssoc]

/-- Witness for C5 at the two-component sample set with the flag set. -/
theorem general_path_contributions_witness :
    ¬((FMTVersion.WhiteBear = FMTVersion.WhiteBear ∨
        FMTVersion.WhiteBear = FMTVersion.AntiSymWhiteBear) ∧ pTwo.m.length = 1) ∧
    (with_options pTwo FMTVersion.WhiteBear optsDefault).contributions =
      [FunctionalContribution.fmtHS pTwo FMTVersion.WhiteBear]
        ++ (if optsDefault.inc_nonadd_term
            then [FunctionalContribution.nonAddHS pTwo] else [])
        ++ [FunctionalContribution.att pTwo] := by
  have h : ¬((FMTVersion.WhiteBear = FMTVersion.WhiteBear ∨
      FMTVersion.WhiteBear = FMTVersion.AntiSymWhiteBear) ∧ pTwo.m.length = 1) := by
    simp [pTwo]
  exact ⟨h, (general_path_contributions pTwo FMTVersion.WhiteBear optsDefault h).1⟩

/-- C6: `subset` re-runs the full variant assembly (`with_options`) on the
reduced parameter set with the same FMT version and options; and when a
White-Bear FMT version is in use, any singleton subset yields the
specialized single-component contribution list. -/
theorem subset_reruns_assembly (f : SaftVRQMieFunctional) (component_list : List ℕ)
    (i : ℕ)
    (hfmt : f.fmt_version = FMTVersion.WhiteBear ∨
      f.fmt_version = FMTVersion.AntiSymWhiteBear) :
    f.subset component_list =
      with_options (f.parameters.subset component_list) f.fmt_version f.options ∧
    (f.subset [i]).contributions =
      [FunctionalContribution.pureFMTAssoc (f.parameters.subset [i]) f.fmt_version,
       FunctionalContribution.pureAtt (f.parameters.subset [i])] := by
  refine ⟨rfl, ?_⟩
  have hlen : (f.parameters.subset [i]).m.length = 1 := by
    simp [SaftVRQMieParameters.subset]
  show (with_options (f.parameters.subset [i]) f.fmt_version f.options).contributions = _
  simp only [with_options]
  rw [if_pos ⟨hfmt, hlen⟩]

/-- Witness for C6: a singleton subset of the two-component sample
functional takes the fast path. -/
theorem subset_reruns_assembly_witness :
    ((with_options pTwo FMTVersion.WhiteBear optsDefault).fmt_version =
        FMTVersion.WhiteBear ∨
      (with_options pTwo FMTVersion.WhiteBear optsDefault).fmt_version =
        FMTVersion.AntiSymWhiteBear) ∧
    ((with_options pTwo FMTVersion.WhiteBear optsDefault).subset [0]).contributions =
      [FunctionalContribution.pureFMTAssoc (pTwo.subset [0]) FMTVersion.WhiteBear,
       FunctionalContribution.pureAtt (pTwo.subset [0])] :=
  ⟨Or.inl rfl,
    (subset_reruns_assembly (with_options pTwo FMTVersion.WhiteBear optsDefault)
      [0, 1] 0 (Or.inl rfl)).2⟩

/-- C8: for a two-component parameter set, toggling `inc_nonadd_term` from
false to true changes the contribution list exactly by inserting the
non-additive hard-sphere correction, all other contributions unchanged
and in the same order. -/
theorem inc_nonadd_inserts_one_contribution (p : SaftVRQMieParameters)
    (fmt : FMTVersion) (o : SaftVRQMieOptions) (h2 : p.m.length = 2) :
    ∃ pre post,
      (with_options p fmt
          ⟨o.max_eta, o.max_iter_cross_assoc, o.tol_cross_assoc, false⟩).contributions =
        pre ++ post ∧
      (with_options p fmt
          ⟨o.max_eta, o.max_iter_cross_assoc, o.tol_cross_assoc, true⟩).contributions =
        pre ++ FunctionalContribution.nonAddHS p :: post ∧
      pre = [FunctionalContribution.fmtHS p fmt] ∧
      post = [FunctionalContribution.att p] := by
  have h : ¬((fmt = FMTVersion.WhiteBear ∨ fmt = FMTVersion.AntiSymWhiteBear)
      ∧ p.m.length = 1) := by
    rintro ⟨-, h1⟩
    rw [h2] at h1
    exact absurd h1 (by norm_num)
  exact ⟨[FunctionalContribution.fmtHS p fmt], [FunctionalContribution.att p],
    by simp [with_options, h], by simp [with_options, h], rfl, rfl⟩

/-- Witness for C8 at the two-component sample set. -/
theorem inc_nonadd_inserts_one_contribution_witness :
    pTwo.m.length = 2 ∧
    ∃ pre post,
      (with_options pTwo FMTVersion.WhiteBear
          ⟨optsDefault.max_eta, optsDefault.max_iter_cross_assoc,
           optsDefault.tol_cross_assoc, false⟩).contributions = pre ++ post ∧
      (with_options pTwo FMTVersion.WhiteBear
          ⟨optsDefault.max_eta, optsDefault.max_iter_cross_assoc,
           optsDefault.tol_cross_assoc, true⟩).contributions =
        pre ++ FunctionalContribution.nonAddHS pTwo :: post ∧
      pre = [FunctionalContribution.fmtHS pTwo FMTVersion.WhiteBear] ∧
      post = [FunctionalContribution.att pTwo] :=
  ⟨rfl, inc_nonadd_inserts_one_contribution pTwo FMTVersion.WhiteBear optsDefault rfl⟩

lemma sigma_ij_symm (p : SaftVRQMieParameters) (i j : ℕ) :
    sigma_ij p i j = sigma_ij p j i := by
  unfold sigma_ij
  ring

lemma epsilon_k_ij_symm (p : SaftVRQMieParameters) (i j : ℕ) :
    epsilon_k_ij p i j = epsilon_k_ij p j i := by
  unfold epsilon_k_ij
  rw [mul_comm]

lemma lambda_r_ij_symm (p : SaftVRQMieParameters) (i j : ℕ) :
    lambda_r_ij p i j = lambda_r_ij p j i := by
  unfold lambda_r_ij
  rw [mul_comm]

lemma lambda_a_ij_symm (p : SaftVRQMieParameters) (i j : ℕ) :
    lambda_a_ij p i j = lambda_a_ij p j i := by
  unfold lambda_a_ij
  rw [mul_comm]

lemma reduced_mass_symm (p : SaftVRQMieParameters) (i j : ℕ) :
    reduced_mass p i j = reduced_mass p j i := by
  unfold reduced_mass
  rw [mul_comm, add_comm]

lemma qmie_potential_ij_symm (p : SaftVRQMieParameters) (i j : ℕ) (r temperature : ℝ) :
    p.qmie_potential_ij i j r temperature = p.qmie_potential_ij j i r temperature := by
  unfold SaftVRQMieParameters.qmie_potential_ij
  rw [sigma_ij_symm, epsilon_k_ij_symm, lambda_r_ij_symm, lambda_a_ij_symm,
    reduced_mass_symm]

/-- C7: the pair-potential matrix is symmetric under species exchange:
entry `(j, k)` of `pair_potential(i, r, T)` equals entry `(i, k)` of
`pair_potential(j, r, T)` for every distance index `k`. -/
theorem pair_potential_species_symmetric (f : SaftVRQMieFunctional) (i j k : ℕ)
    (r : List ℝ) (temperature : ℝ) :
    pair_potential f i r temperature j k = pair_potential f j r temperature i k := by
  unfold pair_potential
  rw [qmie_potential_ij_symm]

end Feos
